import Mathlib

/-!
Shallow embedding of `xmldom.py` (homeinfogmbh/xmldom), centred on the
`DOMWalker` class: a path-based navigator over PyXB binding trees.

The binding tree is modelled by `XNode`: a node is either a scalar binding
(named sub-nodes reached by attribute access, plus an optional simple-type
string value used for identifier comparison) or a plural binding
(`_PluralBinding`): an ordered list of children.

`DOMWalker.__call__` becomes `DOMWalker.call`; the `walked` property becomes
`DOMWalker.walked` over an explicit `WalkerState` holding the `_walked` field
(`none` before the first walk).  The single exception class `DOMWalkTrip` is
modelled as an inductive whose variants record the distinct message formats
raised in the source, each carrying the rendered walked trail at the point of
failure and the offending segment / index / identifier.

Separators (`sep`, `ident_sep`) are modelled as single characters; the source
passes them to Python's `str.split`, and `pySplit` below reproduces
`str.split` for a one-character separator (the only kind used: `'/'` and
`'='`).  `parseInt?` models `int(segment)` on the segment strings: an
optional sign followed by one or more decimal digits.
-/

set_option autoImplicit false

namespace XmlDom

/-- Python `str.split` on a single-character separator, over the character
list: `"".split(c) = [""]`, `"a/b".split("/") = ["a","b"]`,
`"/".split("/") = ["",""]`. -/
def splitChar (sep : Char) : List Char → List (List Char)
  | [] => [[]]
  | c :: cs =>
    if c = sep then [] :: splitChar sep cs
    else
      match splitChar sep cs with
      | [] => [[c]]
      | g :: gs => (c :: g) :: gs

/-- Python `str.split` on a single-character separator, on strings. -/
def pySplit (sep : Char) (s : String) : List String :=
  (splitChar sep s.data).map (fun cs => String.mk cs)

/-- Python `sep.join(strings)` for a single-character separator. -/
def joinSep (sep : Char) : List String → String
  | [] => ""
  | [s] => s
  | s :: rest => s ++ String.mk [sep] ++ joinSep sep rest

/-- Accumulate the value of a run of decimal digits; `none` on the first
non-digit character. -/
def decDigitsAux : List Char → Nat → Option Nat
  | [], acc => some acc
  | c :: cs, acc =>
    if '0' ≤ c ∧ c ≤ '9' then decDigitsAux cs (acc * 10 + (c.toNat - '0'.toNat))
    else none

/-- Python `int(s)` as applied to path segments: an optional `+`/`-` sign
followed by one or more decimal digits; `none` models the `ValueError`
branch. -/
def parseInt? (s : String) : Option Int :=
  match s.data with
  | [] => none
  | '-' :: rest =>
    if rest = [] then none else (decDigitsAux rest 0).map (fun n => -(n : Int))
  | '+' :: rest =>
    if rest = [] then none else (decDigitsAux rest 0).map (fun n => (n : Int))
  | cs => (decDigitsAux cs 0).map (fun n => (n : Int))

/-- A PyXB binding-tree node: a scalar binding with named sub-nodes (and an
optional simple-type string value), or a plural binding (`_PluralBinding`)
holding an ordered list of children. -/
inductive XNode where
  | scalar (value : Option String) (subs : List (String × XNode)) : XNode
  | coll (children : List XNode) : XNode

/-- First binding for `name` in an attribute list (Python attribute lookup on
a binding object). -/
def lookupSub : List (String × XNode) → String → Option XNode
  | [], _ => none
  | (k, v) :: rest, name => if k = name then some v else lookupSub rest name

/-- `getattr(node, name)`: on a scalar binding, the named sub-node; `none`
models `AttributeError`.  Plural bindings expose no named sub-nodes. -/
def getattr? : XNode → String → Option XNode
  | .scalar _ subs, name => lookupSub subs name
  | .coll _, _ => none

/-- The Python comparison `ident_ == value` between a retrieved attribute and
the string from the path segment: true exactly when the attribute is a
simple-type value equal to that string. -/
def valEq : XNode → String → Bool
  | .scalar (some s) _, v => s = v
  | _, _ => false

/-- Outcome of the identifier scan `for elem in root: ...` in the source. -/
inductive IdentScan where
  | found (x : XNode)
  | unidentifiable
  | notFound

/-- The identifier scan: walk the children in order; on the first child
lacking attribute `a`, abort (`AttributeError` branch); on the first child
whose attribute `a` equals `v`, stop with that child (`break`); if the loop
completes, report not-found (the `for`-`else` branch). -/
def scanIdent (a v : String) : List XNode → IdentScan
  | [] => .notFound
  | c :: cs =>
    match getattr? c a with
    | none => .unidentifiable
    | some u => if valEq u v then .found c else scanIdent a v cs

/-- Python list indexing `l[i]`: non-negative indices from the front,
negative indices from the end; `none` models `IndexError`. -/
def pyIndex? (l : List XNode) (i : Int) : Option XNode :=
  if 0 ≤ i then l.get? i.toNat
  else if i.natAbs ≤ l.length then l.get? (l.length - i.natAbs)
  else none

/-- The `DOMWalkTrip` exception, split by the distinct message formats raised
in the source.  Each variant carries the rendered walked trail
(`self.walked`) at the point of failure and the offending datum. -/
inductive DOMWalkTrip where
  | indexOutOfRange (index : Int) (walked : String)
  | malformedIdentifier (walked : String) (segment : String)
  | unidentifiableElement (walked : String) (ident : String)
  | identifierNotFound (walked : String) (ident : String)
  | noSuchSubNode (segment : String) (walked : String)
  | noWalkPerformed
deriving DecidableEq

/-- The walker: an immutable root node and path separator. -/
structure DOMWalker where
  root : XNode
  sep : Char

/-- The mutable `_walked` attribute of a walker: `none` before the first
call (the attribute does not exist yet), `some trail` afterwards. -/
structure WalkerState where
  walked? : Option (List String)

/-- Walker state before any walk has been performed. -/
def WalkerState.fresh : WalkerState := ⟨none⟩

/-- The body of the `for node in path.split(self._sep)` loop of
`DOMWalker.__call__`, over an already-split segment list, threading the
current node and the `_walked` accumulator; returns the result together with
the final `_walked` value (which the source keeps even when it raises). -/
def walkSegs (sep isep : Char) : XNode → List String → List String →
    Except DOMWalkTrip XNode × List String
  | root, walked, [] => (.ok root, walked)
  | root, walked, seg :: rest =>
    if seg = "" then walkSegs sep isep root walked rest
    else
      match root with
      | .coll children =>
        match parseInt? seg with
        | some i =>
          match pyIndex? children i with
          | some c => walkSegs sep isep c (walked ++ [seg]) rest
          | none => (.error (.indexOutOfRange i (joinSep sep walked)), walked)
        | none =>
          match pySplit isep seg with
          | [a, v] =>
            match scanIdent a v children with
            | .found c => walkSegs sep isep c (walked ++ [seg]) rest
            | .unidentifiable =>
              (.error (.unidentifiableElement (joinSep sep walked) a), walked)
            | .notFound =>
              (.error (.identifierNotFound (joinSep sep walked) a), walked)
          | _ => (.error (.malformedIdentifier (joinSep sep walked) seg), walked)
      | .scalar _ _ =>
        match getattr? root seg with
        | some c => walkSegs sep isep c (walked ++ [seg]) rest
        | none => (.error (.noSuchSubNode seg (joinSep sep walked)), walked)

/-- `DOMWalker.__call__(path, ident_sep)`: reset `_walked` to `[""]`, split
the path on the walker's separator, run the loop; the new `WalkerState`
records the final `_walked` (set even when the walk fails). -/
def DOMWalker.call (w : DOMWalker) (path : String) (isep : Char) :
    Except DOMWalkTrip XNode × WalkerState :=
  let r := walkSegs w.sep isep w.root [""] (pySplit w.sep path)
  (r.1, ⟨some r.2⟩)

/-- The `walked` property: the separator-joined `_walked` trail, or the
`Did not walk yet` trip when `_walked` was never set. -/
def DOMWalker.walked (w : DOMWalker) (st : WalkerState) : Except DOMWalkTrip String :=
  match st.walked? with
  | none => .error .noWalkPerformed
  | some tl => .ok (joinSep w.sep tl)

/-- One manual resolution step for a single segment, as the spec describes
it: on a collection, by integer index or identifier lookup; on a scalar, by
attribute-style access. -/
def step (isep : Char) (root : XNode) (seg : String) : Option XNode :=
  match root with
  | .coll children =>
    match parseInt? seg with
    | some i => pyIndex? children i
    | none =>
      match pySplit isep seg with
      | [a, v] =>
        match scanIdent a v children with
        | .found c => some c
        | _ => none
      | _ => none
  | .scalar _ _ => getattr? root seg

/-- Manually following a list of segments in order from a node, one `step`
at a time. -/
def follow (isep : Char) : XNode → List String → Option XNode
  | root, [] => some root
  | root, seg :: rest => (step isep root seg).bind (fun c => follow isep c rest)

/-- The number of non-empty segments successfully resolved before the walk
stops (all of them when it succeeds). -/
def consumedCount (isep : Char) : XNode → List String → Nat
  | _, [] => 0
  | root, seg :: rest =>
    if seg = "" then consumedCount isep root rest
    else
      match step isep root seg with
      | some c => consumedCount isep c rest + 1
      | none => 0

/-- One loop iteration of `DOMWalker.__call__` for a non-empty segment,
as an `Except`: the successor node, or the trip raised, given the `_walked`
trail current when the segment is reached. -/
def stepE (sep isep : Char) (walked : List String) (root : XNode) (seg : String) :
    Except DOMWalkTrip XNode :=
  match root with
  | .coll children =>
    match parseInt? seg with
    | some i =>
      match pyIndex? children i with
      | some c => .ok c
      | none => .error (.indexOutOfRange i (joinSep sep walked))
    | none =>
      match pySplit isep seg with
      | [a, v] =>
        match scanIdent a v children with
        | .found c => .ok c
        | .unidentifiable => .error (.unidentifiableElement (joinSep sep walked) a)
        | .notFound => .error (.identifierNotFound (joinSep sep walked) a)
      | _ => .error (.malformedIdentifier (joinSep sep walked) seg)
  | .scalar _ _ =>
    match getattr? root seg with
    | some c => .ok c
    | none => .error (.noSuchSubNode seg (joinSep sep walked))

end XmlDom

namespace XmlDom

theorem walkSegs_nil (sep isep : Char) (root : XNode) (walked : List String) :
    walkSegs sep isep root walked [] = (.ok root, walked) := rfl

theorem walkSegs_skip (sep isep : Char) (root : XNode) (walked rest : List String) :
    walkSegs sep isep root walked ("" :: rest) = walkSegs sep isep root walked rest := by
  simp [walkSegs]

theorem walkSegs_cons (sep isep : Char) (root : XNode) (walked : List String)
    (seg : String) (rest : List String) (hseg : seg ≠ "") :
    walkSegs sep isep root walked (seg :: rest) =
      match stepE sep isep walked root seg with
      | .ok c => walkSegs sep isep c (walked ++ [seg]) rest
      | .error e => (.error e, walked) := by
  simp only [walkSegs, stepE, if_neg hseg]
  cases root with
  | scalar val subs =>
    cases h : getattr? (XNode.scalar val subs) seg <;> simp [h]
  | coll children =>
    cases hi : parseInt? seg with
    | some i => cases hx : pyIndex? children i <;> simp [hx]
    | none =>
      cases hs : pySplit isep seg with
      | nil => simp
      | cons a tl =>
        cases tl with
        | nil => simp
        | cons v tl2 =>
          cases tl2 with
          | nil => cases hsc : scanIdent a v children <;> simp [hsc]
          | cons x tl3 => simp

theorem stepE_toOption (sep isep : Char) (walked : List String) (root : XNode)
    (seg : String) :
    (stepE sep isep walked root seg).toOption = step isep root seg := by
  simp only [stepE, step]
  cases root with
  | scalar val subs =>
    cases h : getattr? (XNode.scalar val subs) seg <;> simp [h, Except.toOption]
  | coll children =>
    cases hi : parseInt? seg with
    | some i => cases hx : pyIndex? children i <;> simp [hx, Except.toOption]
    | none =>
      cases hs : pySplit isep seg with
      | nil => simp [Except.toOption]
      | cons a tl =>
        cases tl with
        | nil => simp [Except.toOption]
        | cons v tl2 =>
          cases tl2 with
          | nil => cases hsc : scanIdent a v children <;> simp [hsc, Except.toOption]
          | cons x tl3 => simp [Except.toOption]

theorem stepE_ok_of_step (sep isep : Char) (walked : List String) (root : XNode)
    (seg : String) (c : XNode) (h : step isep root seg = some c) :
    stepE sep isep walked root seg = .ok c := by
  have ht := stepE_toOption sep isep walked root seg
  rw [h] at ht
  cases hE : stepE sep isep walked root seg <;> rw [hE] at ht <;>
    simp [Except.toOption] at ht
  rw [ht]

theorem step_none_of_stepE_error (sep isep : Char) (walked : List String) (root : XNode)
    (seg : String) (e : DOMWalkTrip) (h : stepE sep isep walked root seg = .error e) :
    step isep root seg = none := by
  have ht := stepE_toOption sep isep walked root seg
  rw [h] at ht
  simpa [Except.toOption] using ht.symm

end XmlDom

namespace XmlDom

theorem scanIdent_found_eq (a v : String) :
    ∀ (children : List XNode) (j : Nat) (cj u : XNode),
    children.get? j = some cj → getattr? cj a = some u → valEq u v = true →
    (∀ k ck, k < j → children.get? k = some ck →
      ∃ x, getattr? ck a = some x ∧ valEq x v = false) →
    scanIdent a v children = .found cj := by
  intro children
  induction children with
  | nil => intro j cj u hj _ _ _; simp at hj
  | cons c cs ih =>
    intro j cj u hj hattr hval hearlier
    cases j with
    | zero =>
      simp only [List.get?_cons_zero, Option.some.injEq] at hj
      subst hj
      simp [scanIdent, hattr, hval]
    | succ j =>
      obtain ⟨x, hx, hxv⟩ := hearlier 0 c (Nat.succ_pos j) rfl
      simp only [List.get?_cons_succ] at hj
      simp only [scanIdent, hx, hxv, if_neg]
      simp only [Bool.false_eq_true, if_false]
      exact ih j cj u hj hattr hval
        (fun k ck hk hck => hearlier (k + 1) ck (Nat.succ_lt_succ hk) (by simpa using hck))

theorem scanIdent_notFound_eq (a v : String) :
    ∀ (children : List XNode),
    (∀ c ∈ children, ∃ x, getattr? c a = some x ∧ valEq x v = false) →
    scanIdent a v children = .notFound := by
  intro children
  induction children with
  | nil => intro _; rfl
  | cons c cs ih =>
    intro h
    obtain ⟨x, hx, hxv⟩ := h c (List.mem_cons_self c cs)
    simp only [scanIdent, hx, hxv, Bool.false_eq_true, if_false]
    exact ih (fun d hd => h d (List.mem_cons_of_mem c hd))

theorem scanIdent_unidentifiable_eq (a v : String) :
    ∀ (children : List XNode) (j : Nat) (cj : XNode),
    children.get? j = some cj → getattr? cj a = none →
    (∀ k ck, k < j → children.get? k = some ck →
      ∃ x, getattr? ck a = some x ∧ valEq x v = false) →
    scanIdent a v children = .unidentifiable := by
  intro children
  induction children with
  | nil => intro j cj hj _ _; simp at hj
  | cons c cs ih =>
    intro j cj hj hattr hearlier
    cases j with
    | zero =>
      simp only [List.get?_cons_zero, Option.some.injEq] at hj
      subst hj
      simp [scanIdent, hattr]
    | succ j =>
      obtain ⟨x, hx, hxv⟩ := hearlier 0 c (Nat.succ_pos j) rfl
      simp only [List.get?_cons_succ] at hj
      simp only [scanIdent, hx, hxv, Bool.false_eq_true, if_false]
      exact ih j cj hj hattr
        (fun k ck hk hck => hearlier (k + 1) ck (Nat.succ_lt_succ hk) (by simpa using hck))

theorem pyIndex?_of_inbounds (l : List XNode) (i : Int)
    (h1 : -(l.length : Int) ≤ i) (h2 : i < (l.length : Int)) :
    ∃ c, l.get? (if 0 ≤ i then i.toNat else l.length - i.natAbs) = some c ∧
      pyIndex? l i = some c := by
  by_cases h0 : 0 ≤ i
  · have hlt : i.toNat < l.length := by omega
    refine ⟨l.get ⟨i.toNat, hlt⟩, ?_, ?_⟩
    · simp [if_pos h0, List.get?_eq_get hlt]
    · simp [pyIndex?, if_pos h0, List.get?_eq_get hlt]
  · have habs : i.natAbs ≤ l.length := by omega
    have hlt : l.length - i.natAbs < l.length := by omega
    refine ⟨l.get ⟨l.length - i.natAbs, hlt⟩, ?_, ?_⟩
    · simp [if_neg h0, List.get?_eq_get hlt]
    · simp [pyIndex?, if_neg h0, habs, List.get?_eq_get hlt]

theorem pyIndex?_of_out (l : List XNode) (i : Int)
    (h : i < -(l.length : Int) ∨ (l.length : Int) ≤ i) :
    pyIndex? l i = none := by
  rcases h with h | h
  · have h0 : ¬ 0 ≤ i := by omega
    have habs : ¬ i.natAbs ≤ l.length := by omega
    simp [pyIndex?, if_neg h0, habs]
  · have h0 : 0 ≤ i := by omega
    have hge : l.length ≤ i.toNat := by omega
    simp only [pyIndex?, if_pos h0, List.get?_eq_none]
    exact hge

end XmlDom

namespace XmlDom

theorem walkSegs_walked_append (sep isep : Char) :
    ∀ (segs : List String) (root : XNode) (walked : List String),
    ∃ extra, (walkSegs sep isep root walked segs).2 = walked ++ extra := by
  intro segs
  induction segs with
  | nil => intro root walked; exact ⟨[], by simp [walkSegs]⟩
  | cons seg rest ih =>
    intro root walked
    by_cases hseg : seg = ""
    · subst hseg; rw [walkSegs_skip]; exact ih root walked
    · rw [walkSegs_cons sep isep root walked seg rest hseg]
      cases h : stepE sep isep walked root seg with
      | ok c =>
        obtain ⟨extra, hx⟩ := ih c (walked ++ [seg])
        exact ⟨[seg] ++ extra, by simp [hx]⟩
      | error e => exact ⟨[], by simp⟩

theorem walkSegs_walked_length (sep isep : Char) :
    ∀ (segs : List String) (root : XNode) (walked : List String),
    (walkSegs sep isep root walked segs).2.length =
      walked.length + consumedCount isep root segs := by
  intro segs
  induction segs with
  | nil => intro root walked; simp [walkSegs, consumedCount]
  | cons seg rest ih =>
    intro root walked
    by_cases hseg : seg = ""
    · subst hseg
      rw [walkSegs_skip]
      simp only [consumedCount, if_pos rfl]
      exact ih root walked
    · rw [walkSegs_cons sep isep root walked seg rest hseg]
      cases h : stepE sep isep walked root seg with
      | ok c =>
        have hstep : step isep root seg = some c := by
          rw [← stepE_toOption sep isep walked root seg, h]; rfl
        simp only [consumedCount, if_neg hseg, hstep]
        have := ih c (walked ++ [seg])
        simp only [this, List.length_append, List.length_cons, List.length_nil]
        omega
      | error e =>
        have hstep : step isep root seg = none :=
          step_none_of_stepE_error sep isep walked root seg e h
        simp [consumedCount, if_neg hseg, hstep]

theorem walkSegs_eq_filter (sep isep : Char) :
    ∀ (segs : List String) (root : XNode) (walked : List String),
    walkSegs sep isep root walked segs =
      walkSegs sep isep root walked (segs.filter fun s => !(s == "")) := by
  intro segs
  induction segs with
  | nil => intro root walked; rfl
  | cons seg rest ih =>
    intro root walked
    by_cases hseg : seg = ""
    · subst hseg
      rw [walkSegs_skip]
      simpa using ih root walked
    · have hfc : List.filter (fun s => !(s == "")) (seg :: rest) =
          seg :: List.filter (fun s => !(s == "")) rest := by
        simp [List.filter_cons, hseg]
      rw [hfc]
      rw [walkSegs_cons sep isep root walked seg rest hseg,
        walkSegs_cons sep isep root walked seg _ hseg]
      cases h : stepE sep isep walked root seg with
      | ok c => exact ih c (walked ++ [seg])
      | error e => rfl

theorem walkSegs_of_follow (sep isep : Char) :
    ∀ (segs : List String) (root : XNode) (walked : List String) (n : XNode),
    (∀ s ∈ segs, s ≠ "") → follow isep root segs = some n →
    (walkSegs sep isep root walked segs).1 = .ok n := by
  intro segs
  induction segs with
  | nil =>
    intro root walked n _ hf
    simp only [follow, Option.some.injEq] at hf
    rw [walkSegs_nil, hf]
  | cons seg rest ih =>
    intro root walked n hne hf
    have hseg : seg ≠ "" := hne seg (List.mem_cons_self seg rest)
    simp only [follow] at hf
    cases hstep : step isep root seg with
    | none => rw [hstep] at hf; simp at hf
    | some c =>
      rw [hstep] at hf
      simp only [Option.some_bind] at hf
      rw [walkSegs_cons sep isep root walked seg rest hseg,
        stepE_ok_of_step sep isep walked root seg c hstep]
      exact ih c (walked ++ [seg]) n (fun s hs => hne s (List.mem_cons_of_mem seg hs)) hf

theorem walkSegs_of_all_empty (sep isep : Char) :
    ∀ (segs : List String) (root : XNode) (walked : List String),
    (∀ s ∈ segs, s = "") → walkSegs sep isep root walked segs = (.ok root, walked) := by
  intro segs
  induction segs with
  | nil => intro root walked _; rfl
  | cons seg rest ih =>
    intro root walked h
    have hseg : seg = "" := h seg (List.mem_cons_self seg rest)
    subst hseg
    rw [walkSegs_skip]
    exact ih root walked (fun s hs => h s (List.mem_cons_of_mem "" hs))

theorem joinSep_cons_head (sep : Char) (s : String) (rest : List String) :
    (joinSep sep ("" :: s :: rest)).data.head? = some sep := by
  simp [joinSep, String.data_append]

end XmlDom

namespace XmlDom

theorem call_single (w : DOMWalker) (isep : Char) (seg : String)
    (hsplit : pySplit w.sep seg = [seg]) (hseg : seg ≠ "") :
    w.call seg isep =
      match stepE w.sep isep [""] w.root seg with
      | .ok c => (.ok c, ⟨some ["", seg]⟩)
      | .error e => (.error e, ⟨some [""]⟩) := by
  simp only [DOMWalker.call, hsplit]
  rw [walkSegs_cons w.sep isep w.root [""] seg [] hseg]
  cases h : stepE w.sep isep [""] w.root seg with
  | ok c => rfl
  | error e => rfl

/-- C1: for every path composed only of non-empty segments each resolvable
against the walker's tree, `resolve(p)` returns the exact node reached by
manually following those segments in order from the root: attribute-style
access on a scalar node, integer-index or identifier selection on a
collection node (`follow`/`step` spell out that manual walk). -/
theorem claim1_resolve_follows_segments (w : DOMWalker) (isep : Char)
    (path : String) (n : XNode)
    (hne : ∀ s ∈ pySplit w.sep path, s ≠ "")
    (hf : follow isep w.root (pySplit w.sep path) = some n) :
    (w.call path isep).1 = .ok n := by
  simp only [DOMWalker.call]
  exact walkSegs_of_follow w.sep isep (pySplit w.sep path) w.root [""] n hne hf

theorem claim1_witness :
    (DOMWalker.call
        ⟨.scalar none [("header", .scalar none [("id", .scalar (some "X1") [])])], '/'⟩
        "header/id" '=').1 = .ok (.scalar (some "X1") []) :=
  claim1_resolve_follows_segments
    ⟨.scalar none [("header", .scalar none [("id", .scalar (some "X1") [])])], '/'⟩
    '=' "header/id" (.scalar (some "X1") []) (by decide) rfl

/-- C6: leading, trailing, and repeated separators are no-ops: for every
tree, `resolve("/a//b/")` returns the same result (node and walked trail)
as `resolve("a/b")`, because empty segments produced by the split are
skipped. -/
theorem claim6_separator_noops (root : XNode) (isep : Char) :
    DOMWalker.call ⟨root, '/'⟩ "/a//b/" isep = DOMWalker.call ⟨root, '/'⟩ "a/b" isep := by
  simp only [DOMWalker.call]
  rw [show pySplit '/' "/a//b/" = ["", "a", "", "b", ""] from rfl,
    show pySplit '/' "a/b" = ["a", "b"] from rfl,
    walkSegs_eq_filter '/' isep ["", "a", "", "b", ""] root [""],
    walkSegs_eq_filter '/' isep ["a", "b"] root [""]]
  rfl

/-- C7: the `walked` property returns the separator-joined Walked Trail of
the most recent call — after resolving `"a/b/c"` on a tree where `c` fails
it returns `"/a/b"`, not including `c` — and trips with `noWalkPerformed`
when no walk was ever performed on this walker's state. -/
theorem claim7_trail_property (w : DOMWalker) :
    w.walked WalkerState.fresh = .error .noWalkPerformed ∧
    (∀ (path : String) (isep : Char), ∃ tl,
        (w.call path isep).2.walked? = some tl ∧
        w.walked (w.call path isep).2 = .ok (joinSep w.sep tl)) ∧
    DOMWalker.walked ⟨.scalar none [("a", .scalar none [("b", .scalar none [])])], '/'⟩
        ((DOMWalker.call ⟨.scalar none [("a", .scalar none [("b", .scalar none [])])], '/'⟩
          "a/b/c" '=').2) = .ok "/a/b" := by
  refine ⟨rfl, ?_, rfl⟩
  intro path isep
  exact ⟨(walkSegs w.sep isep w.root [""] (pySplit w.sep path)).2, rfl, rfl⟩

/-- C10: a path with no non-empty segments (empty string, lone separator, or
any run of separators) resolves to the root node itself and leaves the
Walked Trail as the single empty sentinel segment. -/
theorem claim10_empty_segments_root (w : DOMWalker) (isep : Char) (path : String)
    (h : ∀ s ∈ pySplit w.sep path, s = "") :
    w.call path isep = (.ok w.root, ⟨some [""]⟩) := by
  simp only [DOMWalker.call]
  rw [walkSegs_of_all_empty w.sep isep (pySplit w.sep path) w.root [""] h]

theorem claim10_witness :
    DOMWalker.call ⟨.coll [], '/'⟩ "//" '=' = (.ok (.coll []), ⟨some [""]⟩) :=
  claim10_empty_segments_root ⟨.coll [], '/'⟩ '=' "//" (by decide)

end XmlDom

namespace XmlDom

/-- C2: on a collection node, a non-integer segment splitting into exactly
`(attr_name, attr_value)` on the identifier separator selects the first
child (in collection order) whose attribute equals the value — first match
wins even when later duplicates exist — and fails with the
identifier-not-found trip when every child has the attribute but none
matches. -/
theorem claim2_identifier_lookup (children : List XNode) (sep isep : Char)
    (seg a v : String)
    (hsplit1 : pySplit sep seg = [seg])
    (hint : parseInt? seg = none)
    (hsplit2 : pySplit isep seg = [a, v]) :
    (∀ (j : Nat) (cj u : XNode), children.get? j = some cj →
        getattr? cj a = some u → valEq u v = true →
        (∀ k ck, k < j → children.get? k = some ck →
          ∃ x, getattr? ck a = some x ∧ valEq x v = false) →
        (DOMWalker.call ⟨.coll children, sep⟩ seg isep).1 = .ok cj) ∧
    ((∀ c ∈ children, ∃ x, getattr? c a = some x ∧ valEq x v = false) →
        DOMWalker.call ⟨.coll children, sep⟩ seg isep =
          (.error (.identifierNotFound "" a), ⟨some [""]⟩)) := by
  have hseg : seg ≠ "" := by
    intro h
    subst h
    rw [show pySplit isep "" = [""] from rfl] at hsplit2
    simp at hsplit2
  constructor
  · intro j cj u hj hattr hval hearlier
    have hscan := scanIdent_found_eq a v children j cj u hj hattr hval hearlier
    have hE : stepE sep isep [""] (XNode.coll children) seg = .ok cj := by
      simp only [stepE, hint, hsplit2, hscan]
    rw [call_single ⟨XNode.coll children, sep⟩ isep seg hsplit1 hseg, hE]
  · intro hall
    have hscan := scanIdent_notFound_eq a v children hall
    have hE : stepE sep isep [""] (XNode.coll children) seg =
        .error (.identifierNotFound "" a) := by
      simp only [stepE, hint, hsplit2, hscan]
      rfl
    rw [call_single ⟨XNode.coll children, sep⟩ isep seg hsplit1 hseg, hE]

theorem claim2_witness :
    (DOMWalker.call
        ⟨.coll [.scalar none [("code", .scalar (some "A") [])],
                .scalar none [("code", .scalar (some "Z9") [])],
                .scalar none [("code", .scalar (some "Z9") []), ("x", .scalar none [])]],
          '/'⟩ "code=Z9" '=').1 =
      .ok (.scalar none [("code", .scalar (some "Z9") [])]) :=
  (claim2_identifier_lookup
      [.scalar none [("code", .scalar (some "A") [])],
       .scalar none [("code", .scalar (some "Z9") [])],
       .scalar none [("code", .scalar (some "Z9") []), ("x", .scalar none [])]]
      '/' '=' "code=Z9" "code" "Z9" (by decide) rfl (by decide)).1
    1 (.scalar none [("code", .scalar (some "Z9") [])]) (.scalar (some "Z9") [])
    rfl rfl rfl
    (fun k ck hk hck => by
      have hk0 : k = 0 := Nat.lt_one_iff.mp hk
      subst hk0
      have hck' : ck = .scalar none [("code", .scalar (some "A") [])] := by
        simpa using hck.symm
      subst hck'
      exact ⟨.scalar (some "A") [], rfl, rfl⟩)

/-- C4: during identifier lookup the children are scanned in order, reading
the named attribute from each child encountered; the first child lacking
that attribute aborts the whole scan with the unidentifiable-element trip
(eager failure, not skip-and-continue). -/
theorem claim4_eager_unidentifiable (children : List XNode) (sep isep : Char)
    (seg a v : String)
    (hsplit1 : pySplit sep seg = [seg])
    (hint : parseInt? seg = none)
    (hsplit2 : pySplit isep seg = [a, v]) :
    ∀ (j : Nat) (cj : XNode), children.get? j = some cj →
    getattr? cj a = none →
    (∀ k ck, k < j → children.get? k = some ck →
      ∃ x, getattr? ck a = some x ∧ valEq x v = false) →
    DOMWalker.call ⟨.coll children, sep⟩ seg isep =
      (.error (.unidentifiableElement "" a), ⟨some [""]⟩) := by
  have hseg : seg ≠ "" := by
    intro h
    subst h
    rw [show pySplit isep "" = [""] from rfl] at hsplit2
    simp at hsplit2
  intro j cj hj hattr hearlier
  have hscan := scanIdent_unidentifiable_eq a v children j cj hj hattr hearlier
  have hE : stepE sep isep [""] (XNode.coll children) seg =
      .error (.unidentifiableElement "" a) := by
    simp only [stepE, hint, hsplit2, hscan]
    rfl
  rw [call_single ⟨XNode.coll children, sep⟩ isep seg hsplit1 hseg, hE]

theorem claim4_witness :
    DOMWalker.call
        ⟨.coll [.scalar none [("code", .scalar (some "A") [])],
                .scalar none [("other", .scalar (some "B") [])],
                .scalar none [("code", .scalar (some "Z9") [])]],
          '/'⟩ "code=Z9" '=' =
      (.error (.unidentifiableElement "" "code"), ⟨some [""]⟩) :=
  claim4_eager_unidentifiable
    [.scalar none [("code", .scalar (some "A") [])],
     .scalar none [("other", .scalar (some "B") [])],
     .scalar none [("code", .scalar (some "Z9") [])]]
    '/' '=' "code=Z9" "code" "Z9" (by decide) rfl (by decide)
    1 (.scalar none [("other", .scalar (some "B") [])]) rfl rfl
    (fun k ck hk hck => by
      have hk0 : k = 0 := Nat.lt_one_iff.mp hk
      subst hk0
      have hck' : ck = .scalar none [("code", .scalar (some "A") [])] := by
        simpa using hck.symm
      subst hck'
      exact ⟨.scalar (some "A") [], rfl, rfl⟩)

end XmlDom

namespace XmlDom

/-- C3: on a collection node, an integer segment `i` steps to `collection[i]`
(Python indexing) when `i` is within the collection's bounds
(`-n ≤ i < n`) and fails with the index-out-of-range trip — carrying the
Walked Trail at the point of failure and the offending index — whenever `i`
is outside those bounds; in particular `resolve("items/5")` on a length-3
collection fails with index 5 and trail `"/items"`. -/
theorem claim3_integer_index (children : List XNode) (sep isep : Char)
    (seg : String) (i : Int)
    (hsplit : pySplit sep seg = [seg]) (hint : parseInt? seg = some i) :
    ((i < -(children.length : Int) ∨ (children.length : Int) ≤ i) →
        DOMWalker.call ⟨.coll children, sep⟩ seg isep =
          (.error (.indexOutOfRange i ""), ⟨some [""]⟩)) ∧
    ((-(children.length : Int) ≤ i ∧ i < (children.length : Int)) →
        ∃ c, children.get? (if 0 ≤ i then i.toNat else children.length - i.natAbs) =
            some c ∧
          (DOMWalker.call ⟨.coll children, sep⟩ seg isep).1 = .ok c) ∧
    (∀ c0 c1 c2 : XNode,
        DOMWalker.call ⟨.scalar none [("items", .coll [c0, c1, c2])], '/'⟩
            "items/5" '=' =
          (.error (.indexOutOfRange 5 "/items"), ⟨some ["", "items"]⟩)) := by
  have hseg : seg ≠ "" := by
    intro h
    subst h
    rw [show parseInt? "" = none from rfl] at hint
    exact Option.noConfusion hint
  refine ⟨?_, ?_, ?_⟩
  · intro hout
    have hE : stepE sep isep [""] (XNode.coll children) seg =
        .error (.indexOutOfRange i "") := by
      simp only [stepE, hint, pyIndex?_of_out children i hout]
      rfl
    rw [call_single ⟨XNode.coll children, sep⟩ isep seg hsplit hseg, hE]
  · rintro ⟨h1, h2⟩
    obtain ⟨c, hc, hpy⟩ := pyIndex?_of_inbounds children i h1 h2
    refine ⟨c, hc, ?_⟩
    have hE : stepE sep isep [""] (XNode.coll children) seg = .ok c := by
      simp only [stepE, hint, hpy]
    rw [call_single ⟨XNode.coll children, sep⟩ isep seg hsplit hseg, hE]
  · intro c0 c1 c2
    rfl

theorem claim3_witness :
    DOMWalker.call
        ⟨.coll [.scalar (some "p") [], .scalar (some "q") [], .scalar (some "r") []],
          '/'⟩ "5" '=' =
      (.error (.indexOutOfRange 5 ""), ⟨some [""]⟩) :=
  (claim3_integer_index
      [.scalar (some "p") [], .scalar (some "q") [], .scalar (some "r") []]
      '/' '=' "5" 5 (by decide) rfl).1 (Or.inr (by decide))

/-- C9: on a collection node of length `n ≥ 1`, an integer segment `i` with
`-n ≤ i ≤ -1` resolves successfully to the element at position `n + i`
(Python-style negative indexing from the end) instead of failing with the
index-out-of-range trip. -/
theorem claim9_negative_index (children : List XNode) (sep isep : Char)
    (seg : String) (i : Int)
    (hsplit : pySplit sep seg = [seg]) (hint : parseInt? seg = some i)
    (h1 : -(children.length : Int) ≤ i) (h2 : i ≤ -1) :
    ∃ c, children.get? (((children.length : Int) + i).toNat) = some c ∧
      (DOMWalker.call ⟨.coll children, sep⟩ seg isep).1 = .ok c := by
  have hseg : seg ≠ "" := by
    intro h
    subst h
    rw [show parseInt? "" = none from rfl] at hint
    exact Option.noConfusion hint
  have h2' : i < (children.length : Int) := by omega
  obtain ⟨c, hc, hpy⟩ := pyIndex?_of_inbounds children i h1 h2'
  have h0 : ¬ 0 ≤ i := by omega
  rw [if_neg h0] at hc
  have hidx : ((children.length : Int) + i).toNat = children.length - i.natAbs := by
    omega
  refine ⟨c, by rw [hidx]; exact hc, ?_⟩
  have hE : stepE sep isep [""] (XNode.coll children) seg = .ok c := by
    simp only [stepE, hint, hpy]
  rw [call_single ⟨XNode.coll children, sep⟩ isep seg hsplit hseg, hE]

theorem claim9_witness :
    (DOMWalker.call ⟨.coll [.scalar (some "p") [], .scalar (some "q") []], '/'⟩
        "-1" '=').1 = .ok (.scalar (some "q") []) := by
  obtain ⟨c, hc, hcall⟩ :=
    claim9_negative_index [.scalar (some "p") [], .scalar (some "q") []]
      '/' '=' "-1" (-1) (by decide) rfl (by decide) (by decide)
  have : c = .scalar (some "q") [] := by simpa using hc.symm
  rw [this] at hcall
  exact hcall

/-- C8: on a collection node, a non-empty segment that neither parses as a
bare integer nor splits into exactly two parts on the identifier separator
fails with the malformed-identifier trip, performing no lookup (the error is
independent of the collection's contents). -/
theorem claim8_malformed_identifier (children : List XNode) (sep isep : Char)
    (seg : String)
    (hsplit1 : pySplit sep seg = [seg]) (hseg : seg ≠ "")
    (hint : parseInt? seg = none)
    (hlen : (pySplit isep seg).length ≠ 2) :
    DOMWalker.call ⟨.coll children, sep⟩ seg isep =
      (.error (.malformedIdentifier "" seg), ⟨some [""]⟩) := by
  have hE : stepE sep isep [""] (XNode.coll children) seg =
      .error (.malformedIdentifier "" seg) := by
    simp only [stepE, hint]
    cases hs : pySplit isep seg with
    | nil => rfl
    | cons x tl =>
      cases tl with
      | nil => rfl
      | cons y tl2 =>
        cases tl2 with
        | nil => rw [hs] at hlen; simp at hlen
        | cons z tl3 => rfl
  rw [call_single ⟨XNode.coll children, sep⟩ isep seg hsplit1 hseg, hE]

theorem claim8_witness :
    DOMWalker.call ⟨.coll [.scalar (some "p") []], '/'⟩ "code" '=' =
      (.error (.malformedIdentifier "" "code"), ⟨some [""]⟩) :=
  claim8_malformed_identifier [.scalar (some "p") []] '/' '=' "code"
    (by decide) (by decide) rfl (by decide)

end XmlDom

namespace XmlDom

/-- C5 (amended): after every resolve call the Walked Trail is the empty
sentinel segment followed by exactly the successfully resolved non-empty
segments — length = (segments resolved) + 1 — and its separator-joined
string form starts with the separator whenever at least one segment has
been resolved (when none has, the trail is just the sentinel and its string
form is the empty string). -/
theorem claim5_trail_invariant (w : DOMWalker) (isep : Char) (path : String) :
    ∃ extra, (w.call path isep).2.walked? = some ("" :: extra) ∧
      ("" :: extra).length = consumedCount isep w.root (pySplit w.sep path) + 1 ∧
      (extra = [] ∨ (joinSep w.sep ("" :: extra)).data.head? = some w.sep) := by
  obtain ⟨extra, hx⟩ := walkSegs_walked_append w.sep isep (pySplit w.sep path) w.root [""]
  refine ⟨extra, ?_, ?_, ?_⟩
  · show some (walkSegs w.sep isep w.root [""] (pySplit w.sep path)).2 =
      some ("" :: extra)
    rw [hx]
    rfl
  · have hlen := walkSegs_walked_length w.sep isep (pySplit w.sep path) w.root [""]
    rw [hx] at hlen
    simp only [List.length_append, List.length_cons, List.length_nil] at hlen ⊢
    omega
  · cases extra with
    | nil => exact Or.inl rfl
    | cons s rest => exact Or.inr (joinSep_cons_head w.sep s rest)

/-- C5 counterexample: after resolving the empty path the Walked Trail is
the single sentinel segment `[""]`, whose separator-joined string form is
the empty string — which does not start with the separator, refuting the
claim that the trail's string form always starts with the separator. -/
theorem claim5_counterexample :
    (DOMWalker.call ⟨.scalar none [], '/'⟩ "" '=').2.walked? = some [""] ∧
    DOMWalker.walked ⟨.scalar none [], '/'⟩
        ((DOMWalker.call ⟨.scalar none [], '/'⟩ "" '=').2) = .ok "" ∧
    ("" : String).data.head? ≠ some '/' :=
  ⟨rfl, rfl, by decide⟩

end XmlDom
